import Mathlib

/-!
# UE5Coro: the initial-suspend gate, the promise traits and the latent promise's
parameter scan

A shallow embedding of `Source/UE5Coro/Public/UE5Coro/AsyncCoroutine.h`.

* `FInitialSuspend` (lines 76-92) and the awaiters returned by
  `FAsyncPromise::initial_suspend` / `FLatentPromise::final_suspend`.
* `std::coroutine_traits<FAsyncCoroutine, Args...>` (lines 62-72).
* `FLatentPromise::FLatentPromise` and the `Init` overload set (lines 161-198).

Template machinery is evaluated by the compiler, so a declared parameter is
represented by the facts the header asks of its type: whether it is convertible
to `FLatentActionInfo`, which `Init` overload an lvalue of that type selects, and
whether it is convertible to `const UObject&`.
-/

namespace UE5Coro

/-! ## Coroutine frames and the initial-suspend gate -/

/-- What can be observed of one coroutine frame while the language evaluates
`co_await promise.initial_suspend()`. -/
inductive Event
  | awaitReady
  | awaitSuspend
  | awaitResume
  | handleDestroy
  | bodyStart
  | guardCallback (guard : Nat)
  deriving DecidableEq, Repr

/-- The target of a `std::coroutine_handle<FLatentPromise>`: the coroutine frame.
`guards` are the cancellation guards currently registered with the frame's
promise, `trace` the events so far, oldest first. -/
structure Frame where
  destroyed : Bool
  parked : Bool
  bodyEntered : Bool
  guards : List Nat
  trace : List Event
  deriving DecidableEq, Repr

/-- A frame as the language hands it to `initial_suspend`: nothing of the body
has run, so nothing is registered. -/
def Frame.fresh : Frame :=
  { destroyed := false, parked := false, bodyEntered := false, guards := [], trace := [] }

/-- The call `Handle.destroy()` of `std::coroutine_handle`: the frame is
reclaimed. The objects in scope are destructed, and a guard's destructor only
unregisters it; no callback is invoked. -/
def Frame.destroy (h : Frame) : Frame :=
  { h with destroyed := true, guards := [], trace := h.trace ++ [Event.handleDestroy] }

/-- The enum `FInitialSuspend::EAction`. -/
inductive EAction
  | Ready
  | Suspend
  | Destroy
  deriving DecidableEq, Repr

/-- The struct `FInitialSuspend`. -/
structure FInitialSuspend where
  Action : EAction
  deriving DecidableEq, Repr

/-- The member `bool await_ready() noexcept { return Action == Ready; }`. -/
def FInitialSuspend.await_ready (s : FInitialSuspend) : Bool :=
  s.Action == EAction.Ready

/-- The member `void await_resume() noexcept { }`. -/
def FInitialSuspend.await_resume (_s : FInitialSuspend) (h : Frame) : Frame := h

/-- The member `await_suspend`:
`if (Action == Destroy) Handle.destroy();`. -/
def FInitialSuspend.await_suspend (s : FInitialSuspend) (Handle : Frame) : Frame :=
  if s.Action == EAction.Destroy then Handle.destroy else Handle

/-- An awaiter as the language sees it: the three members it calls. Here
`await_suspend` returns `void` in every awaiter of the header. -/
structure Awaiter where
  await_ready : Bool
  await_suspend : Frame → Frame
  await_resume : Frame → Frame

/-- The awaiter interface of an `FInitialSuspend` value. -/
def FInitialSuspend.toAwaiter (s : FInitialSuspend) : Awaiter :=
  { await_ready := s.await_ready
    await_suspend := s.await_suspend
    await_resume := s.await_resume }

/-- The standard awaiter `std::suspend_never`, the return type of
`FAsyncPromise::initial_suspend` (line 111). -/
def suspend_never : Awaiter :=
  { await_ready := true, await_suspend := fun h => h, await_resume := fun h => h }

/-- The standard awaiter `std::suspend_always`, the return type of
`FLatentPromise::final_suspend` (line 158). -/
def suspend_always : Awaiter :=
  { await_ready := false, await_suspend := fun h => h, await_resume := fun h => h }

/-- The member `std::suspend_never initial_suspend() { return {}; }` of
`FAsyncPromise` (line 111). -/
def FAsyncPromise.initial_suspend : Awaiter := suspend_never

/-- The member `std::suspend_never final_suspend() noexcept { return {}; }` of
`FAsyncPromise` (line 112). -/
def FAsyncPromise.final_suspend : Awaiter := suspend_never

/-- The member `std::suspend_always final_suspend() noexcept { return {}; }` of
`FLatentPromise` (line 158). -/
def FLatentPromise.final_suspend : Awaiter := suspend_always

/-- The language rule for `co_await promise.initial_suspend()` with a
`void`-returning `await_suspend`: `await_ready` is asked first; when it answers
true `await_resume` runs and the body begins, otherwise the frame is suspended,
`await_suspend` is called with its handle and control goes back to the caller. -/
def initialSuspendGate (a : Awaiter) (h : Frame) : Frame :=
  let h1 := { h with trace := h.trace ++ [Event.awaitReady] }
  if a.await_ready then
    let h2 := a.await_resume { h1 with trace := h1.trace ++ [Event.awaitResume] }
    { h2 with bodyEntered := true, trace := h2.trace ++ [Event.bodyStart] }
  else
    a.await_suspend { h1 with parked := true, trace := h1.trace ++ [Event.awaitSuspend] }

/-- Whether an event is the run of a cancellation guard's callback. -/
def Event.isGuardCallback : Event → Bool
  | Event.guardCallback _ => true
  | _ => false

/-! ## The promise selection of `std::coroutine_traits<FAsyncCoroutine, Args...>` -/

/-- A declared parameter type, as far as the header distinguishes types.
Overload resolution for `Init(Args...)` is decided by the first argument, an
lvalue: the generic `Init(TFirstArg&, TArgs&...)` binds it with the identity
conversion, so `Init(const UObject*, TArgs&...)` and
`Init(FLatentActionInfo, TArgs&...)` are selected only where they need no
conversion either (they then win as the more specialised templates); any
pointer, derived-to-base or user-defined conversion loses to the generic one. -/
inductive ParamType
  /-- The type `const UObject*`. -/
  | constUObjectPtr
  /-- A class type convertible to `const UObject&`: `UObject` or a class derived
  from it, such as the object a member coroutine is called on. -/
  | uobject
  /-- The type `FLatentActionInfo`. -/
  | latentActionInfo
  /-- A type other than `FLatentActionInfo` that converts to it: a struct derived
  from it, or a type with a conversion function. Not convertible to
  `const UObject&`. -/
  | latentInfoLike
  /-- Every other type (an `int`, a `UObject*` without `const`, ...): convertible
  neither to `FLatentActionInfo` nor to `const UObject&`. -/
  | other
  deriving DecidableEq, Repr

/-- The trait `std::is_convertible_v<Args, FLatentActionInfo>` of line 66. -/
def ParamType.convertibleToLatentInfo : ParamType → Bool
  | ParamType.latentActionInfo => true
  | ParamType.latentInfoLike => true
  | _ => false

/-- The trait `std::is_convertible_v<TFirstArg, const UObject&>` of line 194. -/
def ParamType.convertibleToUObjectRef : ParamType → Bool
  | ParamType.uobject => true
  | _ => false

/-- The promise classes `std::conditional_t` chooses between. -/
inductive PromiseType
  | FLatentPromise
  | FAsyncPromise
  deriving DecidableEq, Repr

/-- Why a specialisation of the traits does not compile. -/
inductive CompileError
  /-- A unary fold over `+` was instantiated with an empty pack. -/
  | emptyUnaryFold
  /-- The `static_assert(LatentInfoCount <= 1, ...)` of line 67 failed. -/
  | multipleLatentInfo
  deriving DecidableEq, Repr

deriving instance DecidableEq for Except

/-- The language rule for the unary left fold `(... + pack)`: the elements are
added left to right; with no element the instantiation is ill-formed, since only
`&&`, `||` and `,` give a unary fold over an empty pack a value. -/
def unaryLeftFoldPlus : List Nat → Option Nat
  | [] => none
  | x :: xs => some (xs.foldl (fun acc y => acc + y) x)

/-- The constant `LatentInfoCount` of lines 65-66:
`(... + std::is_convertible_v<Args, FLatentActionInfo>)`; `none` when the
initialiser is ill-formed. -/
def coroutine_traits.LatentInfoCount (Args : List ParamType) : Option Nat :=
  unaryLeftFoldPlus (Args.map fun A => if A.convertibleToLatentInfo then 1 else 0)

/-- The member `promise_type` of lines 67-71, or the error that stops the
translation unit: the `static_assert`, then
`std::conditional_t<LatentInfoCount, FLatentPromise, FAsyncPromise>`. -/
def coroutine_traits.promise_type (Args : List ParamType) : Except CompileError PromiseType :=
  match coroutine_traits.LatentInfoCount Args with
  | none => Except.error CompileError.emptyUnaryFold
  | some n =>
    if n ≤ 1 then
      Except.ok (if n ≠ 0 then PromiseType.FLatentPromise else PromiseType.FAsyncPromise)
    else Except.error CompileError.multipleLatentInfo

/-- The number of parameters convertible to `FLatentActionInfo`. -/
def convertibleCount (Args : List ParamType) : Nat :=
  (Args.filter ParamType.convertibleToLatentInfo).length

/-! ## The latent promise and its constructor -/

/-- Identity of a `UWorld`. -/
abbrev UWorld := Nat

/-- A `UObject` as the scan uses it: its identity and what its `GetWorld()`
returns (`none` for a null pointer). -/
structure UObject where
  id : Nat
  GetWorld : Option UWorld
  deriving DecidableEq, Repr

/-- An `FLatentActionInfo` value; the scan only moves it into
`CreateLatentAction`. -/
structure FLatentActionInfo where
  Linkage : Int
  UUID : Int
  deriving DecidableEq, Repr

/-- A constructor argument: a value of one of the `ParamType` kinds. A
`const UObject*` may be null (`none`). -/
inductive Arg
  | constUObjectPtr (p : Option UObject)
  | uobject (o : UObject)
  | latentActionInfo (i : FLatentActionInfo)
  | latentInfoLike
  | other
  deriving DecidableEq, Repr

/-- The declared type of an argument. -/
def Arg.type : Arg → ParamType
  | Arg.constUObjectPtr _ => ParamType.constUObjectPtr
  | Arg.uobject _ => ParamType.uobject
  | Arg.latentActionInfo _ => ParamType.latentActionInfo
  | Arg.latentInfoLike => ParamType.latentInfoLike
  | Arg.other => ParamType.other

/-- The enum `FLatentPromise::ELatentState`. -/
inductive ELatentState
  | LatentRunning
  | AsyncRunning
  | DeferredDestroy
  | Canceled
  | Done
  deriving DecidableEq, Repr

/-- The data members of `FLatentPromise` (lines 129-132) with their default
member initialisers. -/
structure FLatentPromise where
  World : Option UWorld := none
  PendingLatentCoroutine : Option Nat := none
  LatentState : ELatentState := ELatentState.LatentRunning
  LatentFlags : Nat := 0
  deriving DecidableEq, Repr

/-- A promise together with a record of what was done to it: the calls of
`CreateLatentAction` (the world at the time of the call and the descriptor), the
arguments the scan has taken up, and how often the host was told that the
latent action finished. Each list is oldest first. -/
structure Tracked where
  promise : FLatentPromise := {}
  created : List (Option UWorld × FLatentActionInfo) := []
  visited : List Arg := []
  completions : Nat := 0
  deriving DecidableEq, Repr

/-- A failed `check`/`checkf`, or a dereferenced null pointer. -/
inductive Fault
  | notInGameThread
  | pendingLatentCoroutineSet
  | nullDereference
  deriving DecidableEq, Repr

/-- How far the constructor got: the zero-argument `Init()` is entered with the
given state, or the program stopped with a fault in the given state. -/
inductive Outcome
  | reachedInit (t : Tracked)
  | fatal (f : Fault) (t : Tracked)
  deriving DecidableEq, Repr

/-- The host's creation of the latent action for a world and a descriptor: the
new `FPendingLatentCoroutine`, or `none` when none is created. -/
abbrev Host := Option UWorld → FLatentActionInfo → Option Nat

/-- Modelled from the spec: `FLatentPromise::CreateLatentAction` is declared on
line 134 and defined outside the header. The spec has the descriptor "used to
create the scheduling slot" through the host's
create-scheduling-slot(owning-context, request-descriptor), which yields a "slot
handle or failure"; the result is kept in `PendingLatentCoroutine`. -/
def FLatentPromise.CreateLatentAction (host : Host) (t : Tracked)
    (LatentInfo : FLatentActionInfo) : Tracked :=
  { t with
    promise := { t.promise with
      PendingLatentCoroutine := host t.promise.World LatentInfo }
    created := t.created ++ [(t.promise.World, LatentInfo)] }

/-- The expression `WorldContext->GetWorld()`: a fault on a null pointer. -/
def derefGetWorld (WorldContext : Option UObject) : Except Fault (Option UWorld) :=
  match WorldContext with
  | some o => Except.ok o.GetWorld
  | none => Except.error Fault.nullDereference

/-- The body of `Init(const UObject* WorldContext, TArgs&... Args)` (lines
171-178) before its call `Init(Args...)`:
`if (!World && WorldContext) World = WorldContext->GetWorld();`. -/
def FLatentPromise.InitWorldContext (t : Tracked) (WorldContext : Option UObject) :
    Except Fault Tracked :=
  if t.promise.World.isNone && WorldContext.isSome then
    match derefGetWorld WorldContext with
    | Except.ok w => Except.ok { t with promise := { t.promise with World := w } }
    | Except.error f => Except.error f
  else Except.ok t

/-- The body of `Init(FLatentActionInfo LatentInfo, TArgs&... Args)` (lines
181-188) before its call `Init(Args...)`: `check(!PendingLatentCoroutine)`, then
`CreateLatentAction(std::move(LatentInfo))`. -/
def FLatentPromise.InitLatentInfo (host : Host) (t : Tracked) (LatentInfo : FLatentActionInfo) :
    Except Fault Tracked :=
  if t.promise.PendingLatentCoroutine.isSome then Except.error Fault.pendingLatentCoroutineSet
  else Except.ok (FLatentPromise.CreateLatentAction host t LatentInfo)

/-- The address `std::addressof(First)` as a `const UObject*`, for an argument
whose type is convertible to `const UObject&`. -/
def Arg.addressAsUObject : Arg → Option UObject
  | Arg.uobject o => some o
  | _ => none

/-- The body of the generic `Init(TFirstArg& First, TArgs&... Args)` (lines
191-198) before the scan goes on with `Args`: when
`std::is_convertible_v<TFirstArg, const UObject&>` it calls the
`const UObject*` overload on the address of `First`, otherwise nothing. -/
def FLatentPromise.InitGeneric (t : Tracked) (First : Arg) : Except Fault Tracked :=
  if First.type.convertibleToUObjectRef then
    FLatentPromise.InitWorldContext t First.addressAsUObject
  else Except.ok t

/-- One call of the overload set on the first remaining argument, up to that
overload's call `Init(Args...)` on the rest. -/
def FLatentPromise.InitFirst (host : Host) (t : Tracked) (First : Arg) : Except Fault Tracked :=
  match First with
  | Arg.constUObjectPtr WorldContext => FLatentPromise.InitWorldContext t WorldContext
  | Arg.latentActionInfo LatentInfo => FLatentPromise.InitLatentInfo host t LatentInfo
  | _ => FLatentPromise.InitGeneric t First

/-- The calls `Init(Args...)` of lines 167-198: each overload takes up the first
argument and hands the rest to `Init` again, until the zero-argument `Init()`
(declared on line 135, defined outside the header) is reached. -/
def FLatentPromise.Init (host : Host) : Tracked → List Arg → Outcome
  | t, [] => Outcome.reachedInit t
  | t, First :: Args =>
    let t1 := { t with visited := t.visited ++ [First] }
    match FLatentPromise.InitFirst host t1 First with
    | Except.ok t2 => FLatentPromise.Init host t2 Args
    | Except.error f => Outcome.fatal f t1

/-- The constructor `FLatentPromise::FLatentPromise(TArgs&&... Args)` (lines
161-168): `checkf(IsInGameThread(), ...)`, then `Init(Args...)`. The engine's
`check` macros are taken as enabled: a failed check stops the program. -/
def FLatentPromise.construct (host : Host) (IsInGameThread : Bool) (Args : List Arg) : Outcome :=
  if IsInGameThread then FLatentPromise.Init host {} Args
  else Outcome.fatal Fault.notInGameThread {}

/-- The state the constructor stopped in, either way. -/
def Outcome.state : Outcome → Tracked
  | Outcome.reachedInit t => t
  | Outcome.fatal _ t => t

/-- Whether the constructor stopped with a fault. -/
def Outcome.isFatal : Outcome → Bool
  | Outcome.reachedInit _ => false
  | Outcome.fatal _ _ => true

/-- What the scan leaves behind for the rest of the promise's life: whether and
how it failed, the resolved world and the calls of `CreateLatentAction`. -/
def Outcome.summary (r : Outcome) :
    Option Fault × Option UWorld × List (Option UWorld × FLatentActionInfo) :=
  match r with
  | Outcome.reachedInit t => (none, t.promise.World, t.created)
  | Outcome.fatal f t => (some f, t.promise.World, t.created)

/-- Modelled from the spec: the zero-argument `FLatentPromise::Init()` is
declared on line 135 and defined outside the header. The spec gives the end of
construction no failure of its own: a missing owning context "degrades silently
(null/ownerless mode) rather than erroring, up until slot creation itself fails,
which is handled via the Destroy-before-run initial-suspend outcome". The
initial-suspend decision is "evaluated during promise construction": Ready when
"no scheduling slot needed or found", Suspend when "a scheduling slot was
successfully created", Destroy when "slot creation failed". -/
def FLatentPromise.InitTerminal (t : Tracked) : Except Fault (Tracked × FInitialSuspend) :=
  Except.ok (t,
    if t.created.isEmpty then FInitialSuspend.mk EAction.Ready
    else if t.promise.PendingLatentCoroutine.isSome then FInitialSuspend.mk EAction.Suspend
    else FInitialSuspend.mk EAction.Destroy)

/-- How the whole constructor ends: the promise is constructed, with the
initial-suspend decision taken, or the program stopped with a fault in the
given state. -/
inductive Construction
  | constructed (t : Tracked) (gate : FInitialSuspend)
  | fatal (f : Fault) (t : Tracked)
  deriving DecidableEq, Repr

/-- Whether the constructor stopped with a fault. -/
def Construction.isFatal : Construction → Bool
  | Construction.constructed _ _ => false
  | Construction.fatal _ _ => true

/-- The constructor of lines 161-168 to its end: the `checkf` and the scan of
`construct`, then the body of the zero-argument `Init()` the scan arrives at. -/
def FLatentPromise.constructComplete (host : Host) (IsInGameThread : Bool) (Args : List Arg) :
    Construction :=
  match FLatentPromise.construct host IsInGameThread Args with
  | Outcome.fatal f t => Construction.fatal f t
  | Outcome.reachedInit t =>
    match FLatentPromise.InitTerminal t with
    | Except.ok (t2, gate) => Construction.constructed t2 gate
    | Except.error f => Construction.fatal f t

/-- An owning-context argument: a `const UObject*` or something convertible to
`const UObject&`. -/
def Arg.isOwningContext : Arg → Bool
  | Arg.constUObjectPtr _ => true
  | Arg.uobject _ => true
  | _ => false

/-- The world an owning-context argument offers: `GetWorld()` of the object it
designates; `none` for a null pointer and for every other argument. -/
def Arg.offeredWorld : Arg → Option UWorld
  | Arg.constUObjectPtr (some o) => o.GetWorld
  | Arg.uobject o => o.GetWorld
  | _ => none

/-- An argument the scan passes over: neither an owning context nor an
`FLatentActionInfo`. -/
def Arg.isInert : Arg → Bool
  | Arg.latentInfoLike => true
  | Arg.other => true
  | _ => false

/-- The number of arguments whose type is `FLatentActionInfo` itself. -/
def latentInfoArgs (Args : List Arg) : Nat :=
  (Args.filter fun a => a.type == ParamType.latentActionInfo).length

/-- The world named by the reading "the first owning context wins":
`GetWorld()` of the first owning-context argument in declaration order, null
when that argument is a null pointer or there is none. -/
def firstOwningContextWorld (Args : List Arg) : Option UWorld :=
  match Args.find? Arg.isOwningContext with
  | some a => a.offeredWorld
  | none => none

/-! ## `return_void` -/

/-- Modelled from the spec: `FLatentPromise::return_void` is declared on line 159
and defined outside the header. The spec: it "sets state to `Done` unless a
concurrent cancellation already set `Canceled`/`Deferred-Destroy` (cancellation
wins the race), and if a scheduling slot exists, notifies the host that the
slot's work is finished." -/
def FLatentPromise.return_void (t : Tracked) : Tracked :=
  let t1 : Tracked :=
    if t.promise.LatentState = ELatentState.Canceled
        ∨ t.promise.LatentState = ELatentState.DeferredDestroy then t
    else { t with promise := { t.promise with LatentState := ELatentState.Done } }
  if t1.promise.PendingLatentCoroutine.isSome then
    { t1 with completions := t1.completions + 1 }
  else t1

/-- The state after `n` calls of `return_void`. -/
def returnVoidTimes : Nat → Tracked → Tracked
  | 0, t => t
  | n + 1, t => returnVoidTimes n (FLatentPromise.return_void t)

/-- Among `n` successive calls of `return_void`, the number of calls that found a
state other than `Done` and left `Done`. -/
def doneTransitions : Nat → Tracked → Nat
  | 0, _ => 0
  | n + 1, t =>
    (if t.promise.LatentState ≠ ELatentState.Done
        ∧ (FLatentPromise.return_void t).promise.LatentState = ELatentState.Done then 1 else 0)
      + doneTransitions n (FLatentPromise.return_void t)


/-! ## The initial-suspend gate: theorems -/

/-- C1: when `Action` is `Destroy`, `await_ready` answers false, `await_suspend`
is exactly the handle's `destroy()`, and the gate leaves the frame destroyed with
the body not entered: the events it adds are `await_ready`, `await_suspend` and
the handle's destroy, so no statement of the body and no callback of a
cancellation guard is among them. -/
theorem initial_suspend_destroy_reclaims_unstarted (s : FInitialSuspend) (h : Frame)
    (hs : s.Action = EAction.Destroy) :
    s.await_ready = false
    ∧ s.await_suspend h = h.destroy
    ∧ (initialSuspendGate s.toAwaiter h).destroyed = true
    ∧ (initialSuspendGate s.toAwaiter h).bodyEntered = h.bodyEntered
    ∧ (initialSuspendGate s.toAwaiter h).trace
        = h.trace ++ [Event.awaitReady, Event.awaitSuspend, Event.handleDestroy]
    ∧ (∀ e ∈ (initialSuspendGate s.toAwaiter h).trace, e ∉ h.trace →
        e ≠ Event.bodyStart ∧ e.isGuardCallback = false) := by
  obtain ⟨a⟩ := s
  subst hs
  have htrace : (initialSuspendGate (FInitialSuspend.mk EAction.Destroy).toAwaiter h).trace
      = h.trace ++ [Event.awaitReady, Event.awaitSuspend, Event.handleDestroy] := by
    simp [initialSuspendGate, FInitialSuspend.toAwaiter, FInitialSuspend.await_ready,
      FInitialSuspend.await_suspend, Frame.destroy]
  refine ⟨rfl, rfl, rfl, rfl, htrace, ?_⟩
  intro e he hnew
  rw [htrace, List.mem_append] at he
  rcases he with he | he
  · exact absurd he hnew
  · simp only [List.mem_cons, List.mem_singleton, List.not_mem_nil, or_false] at he
    rcases he with rfl | rfl | rfl <;> exact ⟨by decide, rfl⟩

/-- The gate of C1 on a fresh frame. -/
theorem initial_suspend_destroy_reclaims_unstarted_witness :
    (FInitialSuspend.mk EAction.Destroy).await_ready = false
    ∧ (initialSuspendGate (FInitialSuspend.mk EAction.Destroy).toAwaiter Frame.fresh)
        = { destroyed := true, parked := true, bodyEntered := false, guards := [],
            trace := [Event.awaitReady, Event.awaitSuspend, Event.handleDestroy] } :=
  ⟨(initial_suspend_destroy_reclaims_unstarted ⟨EAction.Destroy⟩ Frame.fresh rfl).1, by decide⟩

/-- C6: the gate is three-way. `await_ready` is true exactly for `Ready`; for
`Ready` the gate does what the fire-and-forget promise's `initial_suspend` (a
`std::suspend_never`) does, entering the body without calling `await_suspend`; for
`Suspend`, `await_ready` is false and `await_suspend` returns the frame as it
got it, parked and not destroyed; and a frame that was not destroyed before is
destroyed by the gate exactly for `Destroy`. -/
theorem initial_suspend_three_way (s : FInitialSuspend) (h : Frame)
    (hlive : h.destroyed = false) :
    (s.await_ready = true ↔ s.Action = EAction.Ready)
    ∧ (s.Action = EAction.Ready →
        initialSuspendGate s.toAwaiter h = initialSuspendGate FAsyncPromise.initial_suspend h
        ∧ (initialSuspendGate s.toAwaiter h).bodyEntered = true
        ∧ (initialSuspendGate s.toAwaiter h).trace
            = h.trace ++ [Event.awaitReady, Event.awaitResume, Event.bodyStart])
    ∧ (s.Action = EAction.Suspend →
        s.await_ready = false
        ∧ s.await_suspend h = h
        ∧ initialSuspendGate s.toAwaiter h
            = { h with parked := true,
                       trace := h.trace ++ [Event.awaitReady, Event.awaitSuspend] }
        ∧ (initialSuspendGate s.toAwaiter h).destroyed = false)
    ∧ ((s.await_suspend h).destroyed = true ↔ s.Action = EAction.Destroy)
    ∧ ((initialSuspendGate s.toAwaiter h).destroyed = true ↔ s.Action = EAction.Destroy)
    ∧ (Event.handleDestroy ∈ (initialSuspendGate s.toAwaiter Frame.fresh).trace
        ↔ s.Action = EAction.Destroy) := by
  obtain ⟨a⟩ := s
  cases a <;>
    simp [initialSuspendGate, FInitialSuspend.toAwaiter, FInitialSuspend.await_ready,
      FInitialSuspend.await_suspend, FInitialSuspend.await_resume, Frame.destroy,
      FAsyncPromise.initial_suspend, suspend_never, Frame.fresh, hlive]

/-- The gate of C6 on a fresh frame, for `Suspend`. -/
theorem initial_suspend_three_way_witness :
    Frame.fresh.destroyed = false
    ∧ (FInitialSuspend.mk EAction.Suspend).await_ready = false
    ∧ initialSuspendGate (FInitialSuspend.mk EAction.Suspend).toAwaiter Frame.fresh
        = { Frame.fresh with parked := true,
                             trace := [Event.awaitReady, Event.awaitSuspend] } :=
  ⟨rfl,
   ((initial_suspend_three_way ⟨EAction.Suspend⟩ Frame.fresh rfl).2.2.1 rfl).1,
   by decide⟩

/-! ## The promise traits: theorems -/

/-- The left fold over `+` from a start value adds the sum of the list. -/
theorem foldl_add_start (xs : List Nat) (x : Nat) :
    xs.foldl (fun acc y => acc + y) x = x + xs.foldl (fun acc y => acc + y) 0 := by
  induction xs generalizing x with
  | nil => simp
  | cons y ys ih => simp only [List.foldl_cons]; rw [ih (x + y), ih (0 + y)]; omega

/-- Summing the 0/1 convertibility flags counts the convertible parameters. -/
theorem foldl_flags_eq_convertibleCount (Args : List ParamType) :
    (Args.map fun A => if A.convertibleToLatentInfo then 1 else 0).foldl
      (fun acc y => acc + y) 0 = convertibleCount Args := by
  induction Args with
  | nil => rfl
  | cons A As ih =>
    simp only [List.map_cons, List.foldl_cons]
    rw [foldl_add_start, ih]
    cases hA : A.convertibleToLatentInfo <;> simp [convertibleCount, List.filter, hA]
    omega

/-- For a non-empty parameter list `LatentInfoCount` is the number of parameters
convertible to `FLatentActionInfo`. -/
theorem LatentInfoCount_of_ne_nil (Args : List ParamType) (hne : Args ≠ []) :
    coroutine_traits.LatentInfoCount Args = some (convertibleCount Args) := by
  cases Args with
  | nil => exact absurd rfl hne
  | cons A As =>
    have h := foldl_flags_eq_convertibleCount (A :: As)
    simp only [List.map_cons, List.foldl_cons] at h
    simp only [coroutine_traits.LatentInfoCount, List.map_cons, unaryLeftFoldPlus]
    rw [← h]; simp

/-- For a non-empty parameter list the traits reject exactly the lists with two
or more parameters convertible to `FLatentActionInfo`, choose `FLatentPromise`
for exactly one and `FAsyncPromise` for none. -/
theorem promise_type_of_ne_nil (Args : List ParamType) (hne : Args ≠ []) :
    ((∃ e, coroutine_traits.promise_type Args = Except.error e) ↔ 2 ≤ convertibleCount Args)
    ∧ (convertibleCount Args = 1 →
        coroutine_traits.promise_type Args = Except.ok PromiseType.FLatentPromise)
    ∧ (convertibleCount Args = 0 →
        coroutine_traits.promise_type Args = Except.ok PromiseType.FAsyncPromise) := by
  simp only [coroutine_traits.promise_type, LatentInfoCount_of_ne_nil Args hne]
  refine ⟨?_, ?_, ?_⟩
  · by_cases h : convertibleCount Args ≤ 1
    · simp [h]; omega
    · simp [h]; omega
  · intro h; simp [h]
  · intro h; simp [h]

/-- Whatever the traits accept has at most one parameter convertible to
`FLatentActionInfo`, and exactly one when they choose `FLatentPromise`. -/
theorem convertibleCount_of_promise_type (Args : List ParamType) (p : PromiseType)
    (h : coroutine_traits.promise_type Args = Except.ok p) :
    convertibleCount Args ≤ 1 ∧ (p = PromiseType.FLatentPromise → convertibleCount Args = 1) := by
  cases Args with
  | nil => simp [coroutine_traits.promise_type, coroutine_traits.LatentInfoCount,
      unaryLeftFoldPlus] at h
  | cons A As =>
    simp only [coroutine_traits.promise_type,
      LatentInfoCount_of_ne_nil (A :: As) (List.cons_ne_nil A As)] at h
    by_cases hle : convertibleCount (A :: As) ≤ 1
    · refine ⟨hle, ?_⟩
      intro hp
      subst hp
      by_cases h0 : convertibleCount (A :: As) = 0
      · simp [hle, h0] at h
      · omega
    · simp [hle] at h

/-- C2, at the empty parameter list: no parameter is convertible to
`FLatentActionInfo`, so the claim has the traits accept the list with
`FAsyncPromise`; the unary fold of line 66 has no value for an empty pack, so
`LatentInfoCount` is ill-formed and the specialisation does not compile. -/
theorem coroutine_traits_empty_pack_rejected :
    convertibleCount [] = 0
    ∧ coroutine_traits.LatentInfoCount [] = none
    ∧ coroutine_traits.promise_type [] = Except.error CompileError.emptyUnaryFold
    ∧ coroutine_traits.promise_type [] ≠ Except.ok PromiseType.FAsyncPromise := by
  decide

/-! ## The parameter scan: lemmas -/

/-- The `const UObject*` overload never faults: it sets `World` to the world the
pointer offers when `World` is still null, and leaves it otherwise. -/
theorem InitWorldContext_ok (t : Tracked) (WorldContext : Option UObject) :
    FLatentPromise.InitWorldContext t WorldContext
      = Except.ok { t with promise := { t.promise with
          World := t.promise.World.or (WorldContext.bind UObject.GetWorld) } } := by
  obtain ⟨⟨W, P, S, F⟩, c, v, k⟩ := t
  cases W <;> cases WorldContext <;>
    simp [FLatentPromise.InitWorldContext, derefGetWorld]

/-- An argument whose type is not `FLatentActionInfo` itself only offers its
world. -/
theorem InitFirst_of_not_latentInfo (host : Host) (t : Tracked) (a : Arg)
    (ha : a.type ≠ ParamType.latentActionInfo) :
    FLatentPromise.InitFirst host t a
      = Except.ok { t with promise := { t.promise with
          World := t.promise.World.or a.offeredWorld } } := by
  obtain ⟨⟨W, P, S, F⟩, c, v, k⟩ := t
  cases a with
  | constUObjectPtr p =>
    cases p <;> simp [FLatentPromise.InitFirst, InitWorldContext_ok, Arg.offeredWorld,
      Option.or_none]
  | uobject o =>
    simp [FLatentPromise.InitFirst, FLatentPromise.InitGeneric, Arg.type,
      ParamType.convertibleToUObjectRef, InitWorldContext_ok, Arg.offeredWorld,
      Arg.addressAsUObject]
  | latentActionInfo i => exact absurd rfl ha
  | latentInfoLike =>
    simp [FLatentPromise.InitFirst, FLatentPromise.InitGeneric, Arg.type,
      ParamType.convertibleToUObjectRef, Arg.offeredWorld, Option.or_none]
  | other =>
    simp [FLatentPromise.InitFirst, FLatentPromise.InitGeneric, Arg.type,
      ParamType.convertibleToUObjectRef, Arg.offeredWorld, Option.or_none]

/-- Counting the `FLatentActionInfo` arguments, one argument at a time. -/
theorem latentInfoArgs_cons (a : Arg) (Args : List Arg) :
    latentInfoArgs (a :: Args)
      = (if a.type = ParamType.latentActionInfo then 1 else 0) + latentInfoArgs Args := by
  by_cases h : a.type = ParamType.latentActionInfo
  · simp [latentInfoArgs, List.filter_cons, h]; omega
  · simp [latentInfoArgs, List.filter_cons, h]

/-- Every `FLatentActionInfo` argument is convertible to `FLatentActionInfo`, so
the `static_assert` bounds their number. -/
theorem latentInfoArgs_le_convertibleCount (Args : List Arg) :
    latentInfoArgs Args ≤ convertibleCount (Args.map Arg.type) := by
  induction Args with
  | nil => simp [latentInfoArgs, convertibleCount]
  | cons a Args ih =>
    rw [latentInfoArgs_cons]
    cases a <;>
      simp [convertibleCount, List.filter, Arg.type, ParamType.convertibleToLatentInfo]
        at ih ⊢ <;> omega

/-- With at most one `FLatentActionInfo` argument, and none when a latent action
is already pending, the scan reaches `Init()`: the world is the first one
offered unless one was set before, every argument was taken up once and in
order, and `CreateLatentAction` ran once for each `FLatentActionInfo`
argument. -/
theorem Init_reaches (host : Host) (Args : List Arg) :
    ∀ t : Tracked, latentInfoArgs Args ≤ 1 →
      (t.promise.PendingLatentCoroutine.isSome = true → latentInfoArgs Args = 0) →
      ∃ t2 : Tracked, FLatentPromise.Init host t Args = Outcome.reachedInit t2
        ∧ t2.promise.World = t.promise.World.or (Args.findSome? Arg.offeredWorld)
        ∧ t2.visited = t.visited ++ Args
        ∧ t2.created.length = t.created.length + latentInfoArgs Args
        ∧ t2.promise.LatentState = t.promise.LatentState
        ∧ t2.completions = t.completions := by
  induction Args with
  | nil =>
    intro t _ _
    exact ⟨t, rfl, by simp [Option.or_none], by simp, by simp [latentInfoArgs], rfl, rfl⟩
  | cons a Args ih =>
    intro t hle hpend
    rw [latentInfoArgs_cons] at hle hpend
    by_cases ha : a.type = ParamType.latentActionInfo
    · simp only [ha, if_true] at hle hpend
      have h0 : latentInfoArgs Args = 0 := by omega
      have hnone : t.promise.PendingLatentCoroutine.isSome = false := by
        cases hp : t.promise.PendingLatentCoroutine.isSome
        · rfl
        · have := hpend hp; omega
      cases a with
      | latentActionInfo i =>
        obtain ⟨t2, hrun, hw, hv, hc, hs, hk⟩ :=
          ih (FLatentPromise.CreateLatentAction host
            { t with visited := t.visited ++ [Arg.latentActionInfo i] } i)
            (by omega) (fun _ => h0)
        refine ⟨t2, ?_, ?_, ?_, ?_, ?_, ?_⟩
        · simp only [FLatentPromise.Init, FLatentPromise.InitFirst,
            FLatentPromise.InitLatentInfo, hnone]
          simpa using hrun
        · simpa [FLatentPromise.CreateLatentAction, List.findSome?_cons, Arg.offeredWorld]
            using hw
        · simpa [FLatentPromise.CreateLatentAction] using hv
        · rw [latentInfoArgs_cons]
          simp [FLatentPromise.CreateLatentAction] at hc
          simp [Arg.type]; omega
        · simpa [FLatentPromise.CreateLatentAction] using hs
        · simpa [FLatentPromise.CreateLatentAction] using hk
      | _ => simp [Arg.type] at ha
    · simp only [ha, if_false, Nat.zero_add] at hle hpend
      obtain ⟨t2, hrun, hw, hv, hc, hs, hk⟩ :=
        ih { t with
              promise := { t.promise with World := t.promise.World.or a.offeredWorld }
              visited := t.visited ++ [a] } hle hpend
      refine ⟨t2, ?_, ?_, ?_, ?_, ?_, ?_⟩
      · simp only [FLatentPromise.Init, InitFirst_of_not_latentInfo host _ a ha]
        simpa using hrun
      · rw [hw]
        cases hoff : a.offeredWorld <;> cases hW : t.promise.World <;>
          simp [List.findSome?_cons, hoff]
      · simpa using hv
      · rw [latentInfoArgs_cons]; simp [ha]; simpa using hc
      · simpa using hs
      · simpa using hk

/-- One call of the overload set reads and writes only the promise and the
record of `CreateLatentAction` calls. -/
theorem InitFirst_congr (host : Host) (a : Arg) (t1 t2 : Tracked)
    (hp : t1.promise = t2.promise) (hc : t1.created = t2.created) :
    (∃ u1 u2, FLatentPromise.InitFirst host t1 a = Except.ok u1
        ∧ FLatentPromise.InitFirst host t2 a = Except.ok u2
        ∧ u1.promise = u2.promise ∧ u1.created = u2.created)
    ∨ (∃ f, FLatentPromise.InitFirst host t1 a = Except.error f
        ∧ FLatentPromise.InitFirst host t2 a = Except.error f) := by
  by_cases ha : a.type = ParamType.latentActionInfo
  · cases a with
    | latentActionInfo i =>
      cases hpend : t2.promise.PendingLatentCoroutine.isSome
      · left
        refine ⟨FLatentPromise.CreateLatentAction host t1 i,
          FLatentPromise.CreateLatentAction host t2 i, ?_, ?_, ?_, ?_⟩
        · simp [FLatentPromise.InitFirst, FLatentPromise.InitLatentInfo, hp, hpend]
        · simp [FLatentPromise.InitFirst, FLatentPromise.InitLatentInfo, hpend]
        · simp [FLatentPromise.CreateLatentAction, hp]
        · simp [FLatentPromise.CreateLatentAction, hp, hc]
      · right
        exact ⟨Fault.pendingLatentCoroutineSet,
          by simp [FLatentPromise.InitFirst, FLatentPromise.InitLatentInfo, hp, hpend],
          by simp [FLatentPromise.InitFirst, FLatentPromise.InitLatentInfo, hpend]⟩
    | _ => simp [Arg.type] at ha
  · left
    exact ⟨_, _, InitFirst_of_not_latentInfo host t1 a ha,
      InitFirst_of_not_latentInfo host t2 a ha, by simp [hp], by simpa using hc⟩

/-- The scan's summary does not depend on the record of visited arguments. -/
theorem Init_summary_congr (host : Host) (Args : List Arg) :
    ∀ t1 t2 : Tracked, t1.promise = t2.promise → t1.created = t2.created →
      (FLatentPromise.Init host t1 Args).summary = (FLatentPromise.Init host t2 Args).summary := by
  induction Args with
  | nil => intro t1 t2 hp hc; simp [FLatentPromise.Init, Outcome.summary, hp, hc]
  | cons a Args ih =>
    intro t1 t2 hp hc
    rcases InitFirst_congr host a { t1 with visited := t1.visited ++ [a] }
        { t2 with visited := t2.visited ++ [a] } hp hc with
      ⟨u1, u2, h1, h2, hup, huc⟩ | ⟨f, h1, h2⟩
    · simp only [FLatentPromise.Init, h1, h2]
      exact ih u1 u2 hup huc
    · simp only [FLatentPromise.Init, h1, h2]
      simp [Outcome.summary, hp, hc]

/-- An inert argument is passed over. -/
theorem InitFirst_of_inert (host : Host) (t : Tracked) (a : Arg) (ha : a.isInert = true) :
    FLatentPromise.InitFirst host t a = Except.ok t := by
  cases a <;>
    simp_all [Arg.isInert, FLatentPromise.InitFirst, FLatentPromise.InitGeneric, Arg.type,
      ParamType.convertibleToUObjectRef]

/-- Inserting an inert argument at any position leaves the scan's summary as it
is. -/
theorem Init_insert_inert (host : Host) (a : Arg) (ha : a.isInert = true) (post : List Arg)
    (pre : List Arg) :
    ∀ t : Tracked, (FLatentPromise.Init host t (pre ++ a :: post)).summary
      = (FLatentPromise.Init host t (pre ++ post)).summary := by
  induction pre with
  | nil =>
    intro t
    simp only [List.nil_append, FLatentPromise.Init, InitFirst_of_inert host _ a ha]
    exact Init_summary_congr host post _ _ rfl rfl
  | cons b pre ih =>
    intro t
    simp only [List.cons_append, FLatentPromise.Init]
    cases h : FLatentPromise.InitFirst host { t with visited := t.visited ++ [b] } b with
    | ok u => exact ih u
    | error f => rfl

/-- Removing every inert argument leaves the scan's summary as it is. -/
theorem Init_filter_inert (host : Host) (Args : List Arg) :
    ∀ t : Tracked, (FLatentPromise.Init host t (Args.filter fun a => !a.isInert)).summary
      = (FLatentPromise.Init host t Args).summary := by
  induction Args with
  | nil => intro t; rfl
  | cons a Args ih =>
    intro t
    by_cases ha : a.isInert = true
    · rw [List.filter_cons_of_neg (by simp [ha]), ih t]
      exact (Init_insert_inert host a ha Args [] t).symm
    · rw [List.filter_cons_of_pos (by simpa using ha)]
      simp only [FLatentPromise.Init]
      cases h : FLatentPromise.InitFirst host { t with visited := t.visited ++ [a] } a with
      | ok u => exact ih u
      | error f => rfl

/-- The scan takes up the arguments one by one from the front: what it has
visited when it stops is an initial segment of the list. -/
theorem Init_visited_initial_segment (host : Host) (Args : List Arg) :
    ∀ t : Tracked, ∃ rest : List Arg,
      (FLatentPromise.Init host t Args).state.visited ++ rest = t.visited ++ Args := by
  induction Args with
  | nil => intro t; exact ⟨[], rfl⟩
  | cons a Args ih =>
    intro t
    simp only [FLatentPromise.Init]
    cases h : FLatentPromise.InitFirst host { t with visited := t.visited ++ [a] } a with
    | error f => exact ⟨Args, by simp [Outcome.state]⟩
    | ok u =>
      have hu : u.visited = t.visited ++ [a] := by
        rcases InitFirst_congr host a { t with visited := t.visited ++ [a] }
            { t with visited := t.visited ++ [a] } rfl rfl with ⟨u1, _, h1, _, _, _⟩ | ⟨f, h1, _⟩
        · by_cases ha : a.type = ParamType.latentActionInfo
          · cases a with
            | latentActionInfo i =>
              simp only [FLatentPromise.InitFirst, FLatentPromise.InitLatentInfo] at h
              split at h
              · cases h
              · cases h; rfl
            | _ => simp [Arg.type] at ha
          · rw [InitFirst_of_not_latentInfo host _ a ha] at h
            cases h; rfl
        · rw [h] at h1; cases h1
      obtain ⟨rest, hrest⟩ := ih u
      exact ⟨rest, by simp [hrest, hu]⟩

/-- The state `return_void` leaves is `Done` or the state it found. -/
theorem return_void_state (t : Tracked) :
    (FLatentPromise.return_void t).promise.LatentState
      = if t.promise.LatentState = ELatentState.Canceled
            ∨ t.promise.LatentState = ELatentState.DeferredDestroy
        then t.promise.LatentState else ELatentState.Done := by
  obtain ⟨⟨W, P, S, F⟩, c, v, k⟩ := t
  cases S <;> cases P <;> simp [FLatentPromise.return_void]

/-- A call of `return_void` that finds `Done` leaves `Done`. -/
theorem return_void_of_done (t : Tracked) (h : t.promise.LatentState = ELatentState.Done) :
    (FLatentPromise.return_void t).promise.LatentState = ELatentState.Done := by
  rw [return_void_state]; simp [h]

/-- Once the state is `Done`, no further call of `return_void` makes it `Done`
anew. -/
theorem doneTransitions_of_done (n : Nat) :
    ∀ t : Tracked, t.promise.LatentState = ELatentState.Done → doneTransitions n t = 0 := by
  induction n with
  | zero => intro t _; rfl
  | succ n ih =>
    intro t h
    simp only [doneTransitions, ih _ (return_void_of_done t h)]
    simp [h]

/-- The only fault of a call of the overload set is the failed
`check(!PendingLatentCoroutine)` of the `FLatentActionInfo` overload; no null
pointer is dereferenced. -/
theorem InitFirst_error (host : Host) (t : Tracked) (a : Arg) (f : Fault)
    (h : FLatentPromise.InitFirst host t a = Except.error f) :
    f = Fault.pendingLatentCoroutineSet ∧ a.type = ParamType.latentActionInfo
      ∧ t.promise.PendingLatentCoroutine.isSome = true := by
  by_cases ha : a.type = ParamType.latentActionInfo
  · cases a with
    | latentActionInfo i =>
      simp only [FLatentPromise.InitFirst, FLatentPromise.InitLatentInfo] at h
      split at h
      · cases h; exact ⟨rfl, rfl, by assumption⟩
      · cases h
    | _ => simp [Arg.type] at ha
  · rw [InitFirst_of_not_latentInfo host t a ha] at h
    cases h

/-- The only fault of the scan is the failed `check(!PendingLatentCoroutine)`. -/
theorem Init_fatal (host : Host) (Args : List Arg) :
    ∀ (t u : Tracked) (f : Fault), FLatentPromise.Init host t Args = Outcome.fatal f u →
      f = Fault.pendingLatentCoroutineSet := by
  induction Args with
  | nil => intro t u f h; simp [FLatentPromise.Init] at h
  | cons a Args ih =>
    intro t u f h
    simp only [FLatentPromise.Init] at h
    cases hstep : FLatentPromise.InitFirst host { t with visited := t.visited ++ [a] } a with
    | ok t2 => rw [hstep] at h; exact ih t2 u f h
    | error g =>
      rw [hstep] at h
      simp only [Outcome.fatal.injEq] at h
      rw [← h.1]
      exact (InitFirst_error host _ a g hstep).1

/-- An argument offers no world exactly when it is no owning context, a null
pointer, or an object whose `GetWorld()` is null. -/
theorem offeredWorld_eq_none_iff (a : Arg) :
    a.offeredWorld = none ↔
      a.isOwningContext = false ∨ a = Arg.constUObjectPtr none
        ∨ ∃ o : UObject, (a = Arg.constUObjectPtr (some o) ∨ a = Arg.uobject o)
            ∧ o.GetWorld = none := by
  cases a with
  | constUObjectPtr p => cases p <;> simp [Arg.offeredWorld, Arg.isOwningContext]
  | uobject o => simp [Arg.offeredWorld, Arg.isOwningContext]
  | latentActionInfo i => simp [Arg.offeredWorld, Arg.isOwningContext]
  | latentInfoLike => simp [Arg.offeredWorld, Arg.isOwningContext]
  | other => simp [Arg.offeredWorld, Arg.isOwningContext]

/-- With at most one `FLatentActionInfo` argument, as the `static_assert` of the
traits guarantees, `check(!PendingLatentCoroutine)` never fails: the constructor
reaches `Init()`, having called `CreateLatentAction` once for each
`FLatentActionInfo` argument, wherever it stands. -/
theorem construct_creates_per_latentInfo (host : Host) (Args : List Arg)
    (hle : latentInfoArgs Args ≤ 1) :
    ∃ t : Tracked, FLatentPromise.construct host true Args = Outcome.reachedInit t
      ∧ t.created.length = latentInfoArgs Args := by
  obtain ⟨t, hrun, _, _, hc, _, _⟩ :=
    Init_reaches host Args {} hle (by intro h; simp at h)
  exact ⟨t, by simpa [FLatentPromise.construct] using hrun, by simpa using hc⟩

/-- When no argument merely converts to `FLatentActionInfo`, the
`FLatentActionInfo` arguments are the convertible ones. -/
theorem latentInfoArgs_eq_convertibleCount (Args : List Arg)
    (hexact : ∀ a ∈ Args, a ≠ Arg.latentInfoLike) :
    latentInfoArgs Args = convertibleCount (Args.map Arg.type) := by
  induction Args with
  | nil => simp [latentInfoArgs, convertibleCount]
  | cons a Args ih =>
    have ih2 := ih (fun b hb => hexact b (List.mem_cons_of_mem a hb))
    have ha := hexact a (List.mem_cons_self a Args)
    rw [latentInfoArgs_cons, ih2]
    cases a <;>
      simp [convertibleCount, List.filter_cons, Arg.type, ParamType.convertibleToLatentInfo]
        at ha ⊢
    omega

/-- For a parameter list the `static_assert` accepts in which every parameter
convertible to `FLatentActionInfo` is of that very type, the constructor reaches
`Init()` having called `CreateLatentAction` as often as there are convertible
parameters. -/
theorem construct_creates_convertibleCount (host : Host) (Args : List Arg)
    (hexact : ∀ a ∈ Args, a ≠ Arg.latentInfoLike)
    (hle : convertibleCount (Args.map Arg.type) ≤ 1) :
    ∃ t : Tracked, FLatentPromise.construct host true Args = Outcome.reachedInit t
      ∧ t.created.length = convertibleCount (Args.map Arg.type) := by
  rw [← latentInfoArgs_eq_convertibleCount Args hexact] at hle ⊢
  exact construct_creates_per_latentInfo host Args hle

/-! ## The latent promise's constructor: theorems -/

/-- C3, as stated, fails: the object the coroutine is called on has no world, a
later `const UObject*` has world 7. The first owning context offers null, yet the
scan goes on and ends with world 7. -/
theorem world_first_context_counterexample :
    (Arg.uobject ⟨1, none⟩).isOwningContext = true
    ∧ firstOwningContextWorld
        [Arg.uobject ⟨1, none⟩, Arg.constUObjectPtr (some ⟨2, some 7⟩),
         Arg.latentActionInfo ⟨0, 1⟩] = none
    ∧ FLatentPromise.construct (fun _ _ => some 1) true
        [Arg.uobject ⟨1, none⟩, Arg.constUObjectPtr (some ⟨2, some 7⟩),
         Arg.latentActionInfo ⟨0, 1⟩]
      = Outcome.reachedInit
          { promise := { World := some 7, PendingLatentCoroutine := some 1 }
            created := [(some 7, ⟨0, 1⟩)]
            visited := [Arg.uobject ⟨1, none⟩, Arg.constUObjectPtr (some ⟨2, some 7⟩),
              Arg.latentActionInfo ⟨0, 1⟩] } := by
  decide

/-- C3, amended: on the game thread, for a parameter list with at most one
`FLatentActionInfo` (the traits' `static_assert`), the scan reaches `Init()` with
`World` equal to `GetWorld()` of the first owning-context argument that is not a
null pointer and whose `GetWorld()` is not null: the arguments before it offer no
world and are passed over, and whatever follows it is ignored. -/
theorem world_is_first_offered (host : Host) (pre post : List Arg) (a : Arg) (w : UWorld)
    (hle : latentInfoArgs (pre ++ a :: post) ≤ 1)
    (hpre : ∀ b ∈ pre, b.offeredWorld = none)
    (ha : a.offeredWorld = some w) :
    ∃ t : Tracked, FLatentPromise.construct host true (pre ++ a :: post) = Outcome.reachedInit t
      ∧ t.promise.World = some w := by
  obtain ⟨t, hrun, hw, _, _, _, _⟩ :=
    Init_reaches host (pre ++ a :: post) {} hle (by intro h; simp at h)
  refine ⟨t, by simpa [FLatentPromise.construct] using hrun, ?_⟩
  rw [hw, List.findSome?_append, List.findSome?_eq_none_iff.mpr hpre]
  simp [List.findSome?_cons, ha]

/-- The amended C3 on a list with a null pointer, a worldless object and an
inert argument in front, and a further owning context behind. -/
theorem world_is_first_offered_witness :
    ∃ t : Tracked,
      FLatentPromise.construct (fun _ _ => some 1) true
        ([Arg.constUObjectPtr none, Arg.uobject ⟨1, none⟩, Arg.other]
          ++ Arg.uobject ⟨2, some 7⟩
            :: [Arg.latentActionInfo ⟨0, 1⟩, Arg.constUObjectPtr (some ⟨3, some 9⟩)])
        = Outcome.reachedInit t
      ∧ t.promise.World = some 7 :=
  world_is_first_offered (fun _ _ => some 1)
    [Arg.constUObjectPtr none, Arg.uobject ⟨1, none⟩, Arg.other]
    [Arg.latentActionInfo ⟨0, 1⟩, Arg.constUObjectPtr (some ⟨3, some 9⟩)]
    (Arg.uobject ⟨2, some 7⟩) 7 (by decide) (by decide) rfl

/-- C4: on the game thread, for a parameter list with at most one
`FLatentActionInfo` (the traits' `static_assert`) in which no argument offers a
world (each is no owning context, a null pointer, or an object whose
`GetWorld()` is null), the scan reaches `Init()` without a failed check or a
null dereference, and `World` is still null there. -/
theorem world_stays_null_without_usable_context (host : Host) (Args : List Arg)
    (hle : latentInfoArgs Args ≤ 1)
    (hnone : ∀ a ∈ Args, a.offeredWorld = none) :
    ∃ t : Tracked, FLatentPromise.construct host true Args = Outcome.reachedInit t
      ∧ t.promise.World = none := by
  obtain ⟨t, hrun, hw, _, _, _, _⟩ := Init_reaches host Args {} hle (by intro h; simp at h)
  refine ⟨t, by simpa [FLatentPromise.construct] using hrun, ?_⟩
  rw [hw, List.findSome?_eq_none_iff.mpr hnone]
  rfl

/-- C4 on a list with a null pointer, two worldless objects, an inert argument
and a scheduling request. -/
theorem world_stays_null_without_usable_context_witness :
    ∃ t : Tracked,
      FLatentPromise.construct (fun _ _ => some 1) true
        [Arg.constUObjectPtr none, Arg.uobject ⟨1, none⟩, Arg.other,
         Arg.latentActionInfo ⟨0, 1⟩, Arg.constUObjectPtr (some ⟨2, none⟩)]
        = Outcome.reachedInit t
      ∧ t.promise.World = none :=
  world_stays_null_without_usable_context (fun _ _ => some 1)
    [Arg.constUObjectPtr none, Arg.uobject ⟨1, none⟩, Arg.other,
     Arg.latentActionInfo ⟨0, 1⟩, Arg.constUObjectPtr (some ⟨2, none⟩)]
    (by decide) (by decide)

/-- C5: off the game thread the constructor stops at its `checkf`, for every
parameter list, before anything is scanned: no argument was visited, `World` is
null and `CreateLatentAction` was not called. That check fails exactly off the
game thread. For a parameter list with at most one `FLatentActionInfo` (the
traits' `static_assert`) the scan fails exactly off the game thread, and so does
the constructor as a whole, the zero-argument `Init()` included: on the game
thread the promise ends up constructed. -/
theorem construct_fatal_iff_off_game_thread (host : Host) (IsInGameThread : Bool)
    (Args : List Arg) :
    (IsInGameThread = false →
        FLatentPromise.construct host IsInGameThread Args
          = Outcome.fatal Fault.notInGameThread
              { promise := { World := none, PendingLatentCoroutine := none }
                created := [], visited := [] }
        ∧ FLatentPromise.constructComplete host IsInGameThread Args
          = Construction.fatal Fault.notInGameThread
              { promise := { World := none, PendingLatentCoroutine := none }
                created := [], visited := [] })
    ∧ ((∃ t, FLatentPromise.construct host IsInGameThread Args
          = Outcome.fatal Fault.notInGameThread t) ↔ IsInGameThread = false)
    ∧ ((∃ t, FLatentPromise.constructComplete host IsInGameThread Args
          = Construction.fatal Fault.notInGameThread t) ↔ IsInGameThread = false)
    ∧ (latentInfoArgs Args ≤ 1 →
        ((FLatentPromise.construct host IsInGameThread Args).isFatal = true
          ↔ IsInGameThread = false))
    ∧ (latentInfoArgs Args ≤ 1 →
        ((FLatentPromise.constructComplete host IsInGameThread Args).isFatal = true
          ↔ IsInGameThread = false))
    ∧ (latentInfoArgs Args ≤ 1 → IsInGameThread = true →
        ∃ t gate, FLatentPromise.constructComplete host IsInGameThread Args
          = Construction.constructed t gate ∧ t.visited = Args) := by
  cases IsInGameThread with
  | false =>
    refine ⟨fun _ => ⟨rfl, rfl⟩, ?_, ?_, ?_, ?_, ?_⟩
    · exact ⟨fun _ => rfl, fun _ => ⟨_, rfl⟩⟩
    · exact ⟨fun _ => rfl, fun _ => ⟨_, rfl⟩⟩
    · intro _
      exact ⟨fun _ => rfl, fun _ => rfl⟩
    · intro _
      exact ⟨fun _ => rfl, fun _ => rfl⟩
    · intro _ h; cases h
  | true =>
    have hscan : ∀ t, FLatentPromise.construct host true Args
        ≠ Outcome.fatal Fault.notInGameThread t := by
      intro t ht
      have := Init_fatal host Args {} t Fault.notInGameThread
        (by simpa [FLatentPromise.construct] using ht)
      cases this
    refine ⟨?_, ?_, ?_, ?_, ?_, ?_⟩
    · intro h; cases h
    · constructor
      · rintro ⟨t, ht⟩
        exact absurd ht (hscan t)
      · intro h; cases h
    · constructor
      · rintro ⟨t, ht⟩
        simp only [FLatentPromise.constructComplete] at ht
        cases hrun : FLatentPromise.construct host true Args with
        | reachedInit u => rw [hrun] at ht; simp [FLatentPromise.InitTerminal] at ht
        | fatal f u =>
          rw [hrun] at ht
          simp only [Construction.fatal.injEq] at ht
          rw [ht.1] at hrun
          exact absurd hrun (hscan u)
      · intro h; cases h
    · intro hle
      obtain ⟨t, hrun, _⟩ := construct_creates_per_latentInfo host Args hle
      simp [hrun, Outcome.isFatal]
    · intro hle
      obtain ⟨t, hrun, _⟩ := construct_creates_per_latentInfo host Args hle
      simp [FLatentPromise.constructComplete, hrun, FLatentPromise.InitTerminal,
        Construction.isFatal]
    · intro hle _
      obtain ⟨t, hrun, _, hv, _, _, _⟩ :=
        Init_reaches host Args {} hle (by intro h; simp at h)
      have hrun2 : FLatentPromise.construct host true Args = Outcome.reachedInit t := by
        simpa [FLatentPromise.construct] using hrun
      refine ⟨t,
        (if t.created.isEmpty then FInitialSuspend.mk EAction.Ready
          else if t.promise.PendingLatentCoroutine.isSome then FInitialSuspend.mk EAction.Suspend
          else FInitialSuspend.mk EAction.Destroy), ?_, ?_⟩
      · simp only [FLatentPromise.constructComplete, hrun2, FLatentPromise.InitTerminal]
      · simpa using hv

/-- C5 at a member coroutine with a scheduling request: stopped off the game
thread with nothing done, and constructed on it, parked for its first tick. -/
theorem construct_fatal_iff_off_game_thread_witness :
    (FLatentPromise.construct (fun _ _ => some 1) false
        [Arg.uobject ⟨1, some 7⟩, Arg.latentActionInfo ⟨0, 1⟩]
      = Outcome.fatal Fault.notInGameThread {}
      ∧ FLatentPromise.constructComplete (fun _ _ => some 1) false
        [Arg.uobject ⟨1, some 7⟩, Arg.latentActionInfo ⟨0, 1⟩]
      = Construction.fatal Fault.notInGameThread {})
    ∧ FLatentPromise.constructComplete (fun _ _ => some 1) true
        [Arg.uobject ⟨1, some 7⟩, Arg.latentActionInfo ⟨0, 1⟩]
      = Construction.constructed
          { promise := { World := some 7, PendingLatentCoroutine := some 1 }
            created := [(some 7, ⟨0, 1⟩)]
            visited := [Arg.uobject ⟨1, some 7⟩, Arg.latentActionInfo ⟨0, 1⟩] }
          ⟨EAction.Suspend⟩ :=
  ⟨(construct_fatal_iff_off_game_thread (fun _ _ => some 1) false
      [Arg.uobject ⟨1, some 7⟩, Arg.latentActionInfo ⟨0, 1⟩]).1 rfl,
   by decide⟩

/-- C9, at a member coroutine whose scheduling request is a struct derived from
`FLatentActionInfo`: the traits count one convertible parameter and choose
`FLatentPromise`, but for an lvalue of the derived type the generic `Init`
overload is the better match, so the scan reaches `Init()` without a single
call of `CreateLatentAction` and with no latent action pending. -/
theorem derived_latent_info_creates_no_action :
    coroutine_traits.LatentInfoCount [ParamType.uobject, ParamType.latentInfoLike] = some 1
    ∧ coroutine_traits.promise_type [ParamType.uobject, ParamType.latentInfoLike]
        = Except.ok PromiseType.FLatentPromise
    ∧ [Arg.uobject ⟨1, some 7⟩, Arg.latentInfoLike].map Arg.type
        = [ParamType.uobject, ParamType.latentInfoLike]
    ∧ FLatentPromise.construct (fun _ _ => some 1) true
        [Arg.uobject ⟨1, some 7⟩, Arg.latentInfoLike]
      = Outcome.reachedInit
          { promise := { World := some 7, PendingLatentCoroutine := none }
            created := []
            visited := [Arg.uobject ⟨1, some 7⟩, Arg.latentInfoLike] } := by
  decide

/-- C10: the scan is a total function of the parameter list. Inserting or
removing an argument that is neither an owning context nor an
`FLatentActionInfo`, at any position, changes neither whether and how the
constructor fails, nor the resolved `World`, nor the calls of
`CreateLatentAction`; so does removing all such arguments at once. What the scan
has visited when it stops is an initial segment of the list, and with at most
one `FLatentActionInfo` (the traits' `static_assert`) it reaches `Init()` having
visited every argument once, in declaration order. -/
theorem scan_in_order_blind_to_inert (host : Host) (pre post : List Arg) (a : Arg)
    (ha : a.isInert = true) :
    (FLatentPromise.construct host true (pre ++ a :: post)).summary
      = (FLatentPromise.construct host true (pre ++ post)).summary
    ∧ (∀ Args : List Arg,
        (FLatentPromise.construct host true (Args.filter fun b => !b.isInert)).summary
          = (FLatentPromise.construct host true Args).summary)
    ∧ (∀ Args : List Arg, ∃ rest : List Arg,
        (FLatentPromise.construct host true Args).state.visited ++ rest = Args)
    ∧ (∀ Args : List Arg, latentInfoArgs Args ≤ 1 →
        ∃ t : Tracked, FLatentPromise.construct host true Args = Outcome.reachedInit t
          ∧ t.visited = Args) := by
  refine ⟨?_, ?_, ?_, ?_⟩
  · simpa [FLatentPromise.construct] using Init_insert_inert host a ha post pre {}
  · intro Args
    simpa [FLatentPromise.construct] using Init_filter_inert host Args {}
  · intro Args
    obtain ⟨rest, h⟩ := Init_visited_initial_segment host Args {}
    exact ⟨rest, by simpa [FLatentPromise.construct] using h⟩
  · intro Args hle
    obtain ⟨t, hrun, _, hv, _, _, _⟩ := Init_reaches host Args {} hle (by intro h; simp at h)
    exact ⟨t, by simpa [FLatentPromise.construct] using hrun, by simpa using hv⟩

/-- C10 on a member coroutine: an `int`-like argument put between the object
and the scheduling request changes nothing of the outcome. -/
theorem scan_in_order_blind_to_inert_witness :
    (FLatentPromise.construct (fun _ _ => some 1) true
        ([Arg.uobject ⟨1, some 7⟩] ++ Arg.other :: [Arg.latentActionInfo ⟨0, 1⟩])).summary
      = (FLatentPromise.construct (fun _ _ => some 1) true
        ([Arg.uobject ⟨1, some 7⟩] ++ [Arg.latentActionInfo ⟨0, 1⟩])).summary :=
  (scan_in_order_blind_to_inert (fun _ _ => some 1) [Arg.uobject ⟨1, some 7⟩]
    [Arg.latentActionInfo ⟨0, 1⟩] Arg.other rfl).1

/-! ## `return_void`: theorems -/

/-- C8: `return_void` leaves `Done` when it finds `LatentRunning` or
`AsyncRunning`, and leaves the state as it is when it finds `Canceled` or
`DeferredDestroy`. So among any number of successive calls at most one turns a
state other than `Done` into `Done`, and a `Canceled` state stays `Canceled`
through any number of calls. -/
theorem return_void_done_at_most_once (t : Tracked) :
    ((t.promise.LatentState = ELatentState.LatentRunning
        ∨ t.promise.LatentState = ELatentState.AsyncRunning) →
      (FLatentPromise.return_void t).promise.LatentState = ELatentState.Done)
    ∧ ((t.promise.LatentState = ELatentState.Canceled
        ∨ t.promise.LatentState = ELatentState.DeferredDestroy) →
      (FLatentPromise.return_void t).promise.LatentState = t.promise.LatentState)
    ∧ (∀ n : Nat, doneTransitions n t ≤ 1)
    ∧ (t.promise.LatentState = ELatentState.Canceled →
        ∀ n : Nat, (returnVoidTimes n t).promise.LatentState = ELatentState.Canceled) := by
  refine ⟨?_, ?_, ?_, ?_⟩
  · intro h
    rw [return_void_state]
    rcases h with h | h <;> simp [h]
  · intro h
    rw [return_void_state]
    simp [h]
  · intro n
    induction n generalizing t with
    | zero => simp [doneTransitions]
    | succ n ih =>
      simp only [doneTransitions]
      by_cases hd : (FLatentPromise.return_void t).promise.LatentState = ELatentState.Done
      · rw [doneTransitions_of_done n _ hd]
        split <;> omega
      · have := ih (FLatentPromise.return_void t)
        simp [hd]
        exact this
  · intro h n
    induction n generalizing t with
    | zero => simpa [returnVoidTimes] using h
    | succ n ih =>
      simp only [returnVoidTimes]
      apply ih
      rw [return_void_state]
      simp [h]

/-- C8 on a running promise with a latent action, and on a cancelled one. -/
theorem return_void_done_at_most_once_witness :
    (FLatentPromise.return_void
        { promise := { PendingLatentCoroutine := some 1,
                       LatentState := ELatentState.AsyncRunning } }).promise.LatentState
      = ELatentState.Done
    ∧ (returnVoidTimes 3
        { promise := { LatentState := ELatentState.Canceled } }).promise.LatentState
      = ELatentState.Canceled :=
  ⟨(return_void_done_at_most_once
      { promise := { PendingLatentCoroutine := some 1,
                     LatentState := ELatentState.AsyncRunning } }).1 (Or.inr rfl),
   by decide⟩

end UE5Coro
